import Mathlib

/-!
Shallow embedding of the Metrics Aggregation & Route State Engine of the
clear-analytics-dashboard repository (src/src/dataService.ts), together with
proofs settling the frozen claims about it.

Modelling conventions:
* JS `number` (IEEE-754 float64) values are modelled as exact rationals `ℚ`;
  where the finite/non-finite distinction matters (division by zero) a
  dedicated `JsNum` type tracks infinities and NaN.
* JS `bigint` values are modelled as `ℤ`.
* `Map`/`Set`/arrays are modelled as insertion-ordered lists with the same
  lookup/update semantics.
* `async` accessors that wrap a network query are modelled as functions of the
  outcome of its query (`Except String α`); an accessor whose body is guarded by
  `try`/`catch` absorbs the error into its documented fallback value, an
  accessor without a guard propagates it.
-/

namespace Clear

/-- Oracle price row (interface `OraclePrice` in dataService.ts). -/
structure OraclePrice where
  asset : String
  price : ℚ
  decimals : ℤ
  symbol : String
deriving DecidableEq, Repr

/-- One directional route between two oracle-priced assets
(interface `RouteStatus`). -/
structure RouteStatus where
  fromSymbol : String
  toSymbol : String
  fromAsset : String
  toAsset : String
  isOpen : Bool
  depegPercentage : ℚ
  threshold : ℚ
deriving DecidableEq, Repr

/-- Persisted open/closed interval record (interface `RouteOpenEvent`). -/
structure RouteOpenEvent where
  id : String
  route : String
  openedAt : ℤ
  closedAt : Option ℤ
  durationMs : Option ℤ
deriving DecidableEq, Repr

/-- The per-pair body of `calculateRouteStatus`: builds the `RouteStatus` pushed for
the ordered pair `(fromToken, toToken)` under threshold `depegThreshold`. -/
def routeFor (fromToken toToken : OraclePrice) (depegThreshold : ℤ) : RouteStatus :=
  let maxFromPrice : ℚ := toToken.price * (depegThreshold : ℚ) / 10000
  { fromSymbol := fromToken.symbol
    toSymbol := toToken.symbol
    fromAsset := fromToken.asset
    toAsset := toToken.asset
    isOpen := decide (fromToken.price ≤ maxFromPrice)
    depegPercentage := (toToken.price - fromToken.price) / toToken.price * 100
    threshold := ((10000 : ℚ) - (depegThreshold : ℚ)) / 100 }

/-- `calculateRouteStatus(oraclePrices, depegThreshold)`: the double loop over
all index pairs `i ≠ j`. -/
def calculateRouteStatus (oraclePrices : List OraclePrice) (depegThreshold : ℤ) :
    List RouteStatus :=
  (List.finRange oraclePrices.length).flatMap fun i =>
    (List.finRange oraclePrices.length).filterMap fun j =>
      if i = j then none
      else some (routeFor (oraclePrices.get i) (oraclePrices.get j) depegThreshold)

/-- The route key string built in `updateRouteEvents`:
`` `${route.fromSymbol} -> ${route.toSymbol}` ``. -/
def routeName (r : RouteStatus) : String :=
  r.fromSymbol ++ " -> " ++ r.toSymbol

/-- The records of the log whose `route` field equals `name`
(`events.filter(e => e.route === routeName)`). -/
def byRoute (events : List RouteOpenEvent) (name : String) : List RouteOpenEvent :=
  events.filter fun e => e.route == name

/-- The still-open records of the log for a given route key. -/
def openFor (events : List RouteOpenEvent) (name : String) : List RouteOpenEvent :=
  (byRoute events name).filter fun e => e.closedAt.isNone

/-- One step of selecting `.sort((a, b) => b.openedAt - a.openedAt)[0]`:
keep the current candidate unless a strictly later record appears.  JS
`Array.prototype.sort` is stable, so among records with equal `openedAt` the
earliest one ends up at index 0, which is exactly what this fold keeps. -/
def pick (acc : Option RouteOpenEvent) (e : RouteOpenEvent) : Option RouteOpenEvent :=
  match acc with
  | none => some e
  | some b => if b.openedAt < e.openedAt then some e else some b

/-- The `lastEvent` selected in `updateRouteEvents`: filter by route key, sort
by `openedAt` descending (stable), take the first element. -/
def lastEventFor (events : List RouteOpenEvent) (name : String) : Option RouteOpenEvent :=
  (byRoute events name).foldl pick none

/-- The fresh record pushed when a route opens. -/
def newOpenEvent (name : String) (now : ℤ) : RouteOpenEvent :=
  { id := name ++ "-" ++ toString now
    route := name
    openedAt := now
    closedAt := none
    durationMs := none }

/-- The in-place mutation closing a record:
`lastEvent.closedAt = now; lastEvent.durationMs = now - lastEvent.openedAt`. -/
def closeRecord (now : ℤ) (e : RouteOpenEvent) : RouteOpenEvent :=
  { e with closedAt := some now, durationMs := some (now - e.openedAt) }

/-- Applies `closeRecord` to the first occurrence of `target` in the list.
The JS code mutates the object reference returned by the sort; that reference
is the earliest list element among those with maximal `openedAt`, which is also
the first element structurally equal to it (structurally equal records have
equal `openedAt`). -/
def closeFirst (now : ℤ) (target : RouteOpenEvent) :
    List RouteOpenEvent → List RouteOpenEvent
  | [] => []
  | e :: rest =>
    if e = target then closeRecord now e :: rest
    else e :: closeFirst now target rest

/-- The body of `for (const route of currentRoutes)` loop body of `updateRouteEvents`
for a single route. -/
def updateOneRoute (events : List RouteOpenEvent) (r : RouteStatus) (now : ℤ) :
    List RouteOpenEvent :=
  match lastEventFor events (routeName r) with
  | none =>
    if r.isOpen then events ++ [newOpenEvent (routeName r) now] else events
  | some lastEvent =>
    if r.isOpen then
      if lastEvent.closedAt ≠ none then events ++ [newOpenEvent (routeName r) now]
      else events
    else
      if lastEvent.closedAt = none then closeFirst now lastEvent events else events

/-- `updateRouteEvents(existingEvents, currentRoutes, now)`. -/
def updateRouteEvents (existingEvents : List RouteOpenEvent)
    (currentRoutes : List RouteStatus) (now : ℤ) : List RouteOpenEvent :=
  currentRoutes.foldl (fun evs r => updateOneRoute evs r now) existingEvents

/-- The aggregate interval statistics computed in `getRouteStatusMetrics`
(lines 420-425 of dataService.ts).  The JS expression `e.durationMs || 0`
coincides with `Option.getD 0` on integer durations. -/
structure RouteStats where
  totalTimesOpened : ℕ
  totalOpenDurationMs : ℤ
  averageOpenDurationMs : Option ℚ
deriving DecidableEq, Repr

/-- The statistics block of `getRouteStatusMetrics`, as a function of the
already-updated event log. -/
def routeStatsOf (updatedEvents : List RouteOpenEvent) : RouteStats :=
  let closedEvents := updatedEvents.filter fun e => !e.closedAt.isNone
  let total : ℤ := closedEvents.foldl (fun s e => s + e.durationMs.getD 0) 0
  { totalTimesOpened := updatedEvents.length
    totalOpenDurationMs := total
    averageOpenDurationMs :=
      if 0 < closedEvents.length then some ((total : ℚ) / (closedEvents.length : ℚ))
      else none }

/-! ### Event model (interfaces `SwapEvent`, `IOUMintEvent` and the raw rows
consumed by the accessors). -/

/-- `LiquiditySwapExecuted` event (interface `SwapEvent`).  The JS fields
`from`/`to` are reserved words in Lean and are rendered `fromAddr`/`toAddr`. -/
structure SwapEvent where
  fromAddr : String
  toAddr : String
  receiver : String
  amountIn : ℤ
  tokenAmountOut : ℤ
  iouAmountOut : ℤ
  blockNumber : ℕ
  timestamp : ℕ
  txHash : String
deriving DecidableEq, Repr

/-- IOU `Transfer`-from-zero event (interface `IOUMintEvent`); `to` rendered
`toAddr`. -/
structure IOUMintEvent where
  toAddr : String
  amount : ℤ
  blockNumber : ℕ
  timestamp : ℕ
  txHash : String
deriving DecidableEq, Repr

/-- Decoded `Deposit` event as consumed by `getDepositEvents`. -/
structure DepositEvent where
  sender : String
  assets : ℤ
deriving DecidableEq, Repr

/-- Oracle row returned by the GraphQL `clearOracles` query, after the
`parseInt` steps. -/
structure OracleRow where
  asset : String
  assetDecimals : ℕ
  oracleDecimals : ℕ
  price : ℤ
deriving DecidableEq, Repr

/-- Vault token row returned by the GraphQL `clearVaults` query; `balance` is
the raw integer amount in native base units. -/
structure VaultToken where
  address : String
  name : String
  symbol : String
  decimals : ℕ
  balance : ℤ
  adapter : String
deriving DecidableEq, Repr

/-- Entry of `reserveBalances` (interface `ReserveBalance`).  The
`.toFixed(2)` string formatting is elided: `balance` and `balanceUSD` hold the
exact numbers fed to it. -/
structure ReserveBalance where
  symbol : String
  balance : ℚ
  balanceUSD : ℚ
deriving DecidableEq, Repr

/-- Entry of `tokenAllocations` (interface `VaultTokenAllocation`), with the
string formatting elided as for `ReserveBalance`. -/
structure VaultTokenAllocation where
  symbol : String
  name : String
  address : String
  balance : ℚ
  balanceUSD : ℚ
  decimals : ℕ
  adapter : String
  adapterName : String
deriving DecidableEq, Repr

/-! ### Source accessors

Each accessor is a function of the outcome of its underlying network query.
An accessor whose JS body is wrapped in `try`/`catch` can never reject: on
error it returns its fallback value, so it is modelled as a total function.
An accessor without `try`/`catch` propagates the rejection, so it is modelled
as `Except`-valued. -/

/-- `getSwapEvents`: `try { ...queryFilter... } catch { return [] }`. -/
def getSwapEvents (raw : Except String (List SwapEvent)) : List SwapEvent :=
  match raw with
  | .ok events => events
  | .error _ => []

/-- `getIOUMintEvents` (lines 179-201): the `queryFilter` loop has no
`try`/`catch`, so a failed query rejects the returned promise. -/
def getIOUMintEvents (raw : Except String (List IOUMintEvent)) :
    Except String (List IOUMintEvent) :=
  raw

/-- `getIOUBurnEvents`: sums `args.value` over the Transfer-to-zero events;
no `try`/`catch`, so a failed query rejects. -/
def getIOUBurnEvents (raw : Except String (List ℤ)) : Except String ℤ :=
  raw.map fun values => values.foldl (· + ·) 0

/-- `getVaultCreationEvents`: returns `events.length`; no `try`/`catch`. -/
def getVaultCreationEvents (raw : Except String (List Unit)) : Except String ℕ :=
  raw.map List.length

/-- JS `String.prototype.toLowerCase` on the ASCII strings handled here,
spelled as a map over the character list (extensionally `String.toLower`,
whose core implementation does not reduce in the kernel). -/
def jsToLower (s : String) : String :=
  ⟨s.data.map Char.toLower⟩

/-- Insertion into a JS `Set` iterated in insertion order. -/
def setInsert (s : List String) (x : String) : List String :=
  if x ∈ s then s else s ++ [x]

/-- `getDepositEvents`: sums `args.assets` and collects lower-cased senders
into a `Set`; no `try`/`catch`. -/
def getDepositEvents (raw : Except String (List DepositEvent)) :
    Except String (ℤ × List String) :=
  raw.map fun events =>
    events.foldl (fun acc e => (acc.1 + e.assets, setInsert acc.2 (jsToLower e.sender)))
      (0, [])

/-- `getIOUTotalSupply`: `try`/`catch` returning `0n` on error. -/
def getIOUTotalSupply (raw : Except String ℤ) : ℤ :=
  match raw with
  | .ok s => s
  | .error _ => 0

/-- `getEthPrice`: `try`/`catch` returning `0` on error (and
`data.ethereum?.usd || 0` on a malformed body, folded into the input). -/
def getEthPrice (raw : Except String ℚ) : ℚ :=
  match raw with
  | .ok p => p
  | .error _ => 0

/-- `getRebalanceCount`: `try`/`catch` returning `0` on error. -/
def getRebalanceCount (raw : Except String ℕ) : ℕ :=
  match raw with
  | .ok n => n
  | .error _ => 0

/-- The static `symbolMap` of `getOraclePrices`, keyed by lower-cased asset
address. -/
def symbolMapLookup (addr : String) : Option String :=
  if addr == "0x75faf114eafb1bdbe2f0316df893fd58ce46aa4d" then some "USDC"
  else if addr == "0x69cac783c212bfae06e3c1a9a2e6ae6b17ba0614" then some "GHO"
  else none

/-- The per-row mapping of `getOraclePrices`: normalize the integer oracle
price by `10^oracleDecimals` and resolve the symbol via `symbolMap`, falling
back to `"Unknown"` (a `symbolMap` lookup with an or-else default). -/
def mapOracleRow (row : OracleRow) : OraclePrice :=
  { asset := row.asset
    price := (row.price : ℚ) / (10 : ℚ) ^ row.oracleDecimals
    decimals := (row.oracleDecimals : ℤ)
    symbol := (symbolMapLookup (jsToLower row.asset)).getD "Unknown" }

/-- `getOraclePrices`: `try`/`catch` returning `[]` on error. -/
def getOraclePrices (raw : Except String (List OracleRow)) : List OraclePrice :=
  match raw with
  | .ok rows => rows.map mapOracleRow
  | .error _ => []

/-- `getDepegThreshold`: `parseInt` with a 9995 string default with a `catch` returning
the same default. -/
def getDepegThreshold (raw : Except String (Option ℤ)) : ℤ :=
  match raw with
  | .ok (some t) => t
  | .ok none => 9995
  | .error _ => 9995

/-- One iteration of the `getReserveBalances` token loop: a failed
`balanceOf` call is caught and the token is skipped (nothing is pushed);
otherwise the price is `oraclePrices.find(o => o.symbol === symbol)?.price || 1`
(so a missing price, or a price of `0`, defaults to `1`). -/
def reserveFor (oraclePrices : List OraclePrice) (symbol : String) (decimals : ℕ)
    (rawBalance : Except String ℤ) : Option ReserveBalance :=
  match rawBalance with
  | .error _ => none
  | .ok bal =>
    let formattedBalance : ℚ := (bal : ℚ) / (10 : ℚ) ^ decimals
    let price : ℚ :=
      match oraclePrices.find? fun o => o.symbol == symbol with
      | some oracle => if oracle.price = 0 then 1 else oracle.price
      | none => 1
    some { symbol := symbol, balance := formattedBalance,
           balanceUSD := formattedBalance * price }

/-- `getReserveBalances` over the static token list (GHO with 18 decimals,
USDC with 6). -/
def getReserveBalances (oraclePrices : List OraclePrice)
    (ghoBalance usdcBalance : Except String ℤ) : List ReserveBalance :=
  (reserveFor oraclePrices "GHO" 18 ghoBalance).toList ++
    (reserveFor oraclePrices "USDC" 6 usdcBalance).toList

/-- The per-token mapping of `getVaultTokenAllocations`. -/
def allocationFor (oraclePrices : List OraclePrice) (t : VaultToken) :
    VaultTokenAllocation :=
  let balance : ℚ := (t.balance : ℚ) / (10 : ℚ) ^ t.decimals
  let price : ℚ :=
    match oraclePrices.find? fun o => o.symbol == t.symbol with
    | some oracle => if oracle.price = 0 then 1 else oracle.price
    | none => 1
  { symbol := t.symbol
    name := t.name
    address := t.address
    balance := balance
    balanceUSD := balance * price
    decimals := t.decimals
    adapter := t.adapter
    adapterName :=
      if t.adapter ≠ "0x0000000000000000000000000000000000000000" then
        "Aave V3 Adapter"
      else "Vault (Direct)" }

/-- `getVaultTokenAllocations`: `try`/`catch` (and a missing first vault)
yield `([], 0)`; otherwise the tokens are mapped and the USD total is the sum
of the allocation USD values. -/
def getVaultTokenAllocations (oraclePrices : List OraclePrice)
    (raw : Except String (Option (List VaultToken))) :
    List VaultTokenAllocation × ℚ :=
  match raw with
  | .error _ => ([], 0)
  | .ok none => ([], 0)
  | .ok (some tokens) =>
    let allocations := tokens.map (allocationFor oraclePrices)
    (allocations, (allocations.map fun a => a.balanceUSD).sum)

/-! ### Aggregator (`getAllMetrics`, lines 553-683) -/

/-- The UTC calendar-day key of a unix timestamp, modelling
taking the calendar-day prefix of `new Date(ts * 1000).toISOString()`: two timestamps yield the
same ISO date string exactly when they lie in the same UTC day, i.e. have the
same value of `ts / 86400`. -/
def dateKey (timestamp : ℕ) : ℕ :=
  timestamp / 86400

/-- `Map.get`: the value at the first (unique) matching key. -/
def mapGet (m : List (ℕ × ℤ)) (k : ℕ) : Option ℤ :=
  (m.find? fun p => p.1 == k).map Prod.snd

/-- `Map.set`: replace the value at an existing key in place, else append. -/
def mapSet : List (ℕ × ℤ) → ℕ → ℤ → List (ℕ × ℤ)
  | [], k, v => [(k, v)]
  | p :: rest, k, v =>
    if p.1 = k then (k, v) :: rest else p :: mapSet rest k v

/-- `map.set(k, (map.get(k) || 0n) + a)`: add `a` into the bucket at `k`. -/
def bumpKey (m : List (ℕ × ℤ)) (k : ℕ) (a : ℤ) : List (ℕ × ℤ) :=
  mapSet m k ((mapGet m k).getD 0 + a)

/-- The `dailySwapMap` accumulation loop of `getAllMetrics`. -/
def buildDailySwapMap (events : List SwapEvent) : List (ℕ × ℤ) :=
  events.foldl (fun m e => bumpKey m (dateKey e.timestamp) e.amountIn) []

/-- The `dailyMintMap` accumulation loop of `getAllMetrics`. -/
def buildDailyMintMap (events : List IOUMintEvent) : List (ℕ × ℤ) :=
  events.foldl (fun m e => bumpKey m (dateKey e.timestamp) e.amount) []

/-- The `totalSwapVolume` accumulation loop of `getAllMetrics`. -/
def totalSwapVolume (events : List SwapEvent) : ℤ :=
  events.foldl (fun acc e => acc + e.amountIn) 0

/-- The `totalIOUFromSwaps` accumulation loop of `getAllMetrics`. -/
def totalIOUFromSwaps (events : List SwapEvent) : ℤ :=
  events.foldl (fun acc e => acc + e.iouAmountOut) 0

/-- The `swapUsers` set of `getAllMetrics` (lower-cased receivers). -/
def swapUsers (events : List SwapEvent) : List String :=
  events.foldl (fun s e => setInsert s (jsToLower e.receiver)) []

/-- The `totalIOUMinted` accumulation loop of `getAllMetrics`. -/
def totalIOUMintedOf (events : List IOUMintEvent) : ℤ :=
  events.foldl (fun acc e => acc + e.amount) 0

/-- `ethers.formatEther` / `formatUnits`: divide by `10^decimals`.  The exact
decimal string is modelled by the exact rational it denotes. -/
def formatUnits (amount : ℤ) (decimals : ℕ) : ℚ :=
  (amount : ℚ) / (10 : ℚ) ^ decimals

/-- The metrics snapshot produced by `getAllMetrics` (interface
`ProtocolMetrics`); USD/decimal strings are modelled by the exact numbers fed
to the final formatting step, daily series by `(day key, value)` pairs sorted
by date, and the wall-clock-dated `tvlHistory` entry is elided. -/
structure ProtocolMetrics where
  totalSwapVolumeUSD : ℚ
  totalIOUMinted : ℚ
  totalIOUBurned : ℚ
  rebalanceVolumeUSD : ℚ
  totalValueLockedUSD : ℚ
  reserveBalances : List ReserveBalance
  tokenAllocations : List VaultTokenAllocation
  numberOfVaults : ℕ
  numberOfRebalances : ℕ
  activeUsers : ℕ
  totalTransactions : ℕ
  iouOutstandingSupply : ℚ
  protocolFeesUSD : ℚ
  dailySwapVolume : List (ℕ × ℚ)
  dailyIOUMinted : List (ℕ × ℚ)
  oraclePrices : List OraclePrice
  ethPrice : ℚ
  lastBlock : ℕ
deriving DecidableEq, Repr

/-- The outcomes of the underlying queries issued during one `getAllMetrics`
cycle (the current block height having been obtained already, per the fatal
precondition). -/
structure CycleQueries where
  latestBlock : ℕ
  swaps : Except String (List SwapEvent)
  mints : Except String (List IOUMintEvent)
  burns : Except String (List ℤ)
  vaultCreations : Except String (List Unit)
  deposits : Except String (List DepositEvent)
  iouSupply : Except String ℤ
  ethPriceRaw : Except String ℚ
  oracleRows : Except String (List OracleRow)
  rebalances : Except String ℕ
  ghoBalance : Except String ℤ
  usdcBalance : Except String ℤ
  vaultTokens : Except String (Option (List VaultToken))

/-- `getAllMetrics`: `Promise.all` rejects as soon as any constituent promise
rejects, so the accessors without `try`/`catch` (mint, burn, vault-creation
and deposit queries) propagate their failure to the whole cycle, while the
guarded ones contribute their fallback values. -/
def getAllMetrics (q : CycleQueries) : Except String ProtocolMetrics := do
  let swapEvents := getSwapEvents q.swaps
  let mintEvents ← getIOUMintEvents q.mints
  let burnedAmount ← getIOUBurnEvents q.burns
  let vaultCount ← getVaultCreationEvents q.vaultCreations
  let depositData ← getDepositEvents q.deposits
  let iouSupply := getIOUTotalSupply q.iouSupply
  let ethPrice := getEthPrice q.ethPriceRaw
  let oraclePrices := getOraclePrices q.oracleRows
  let rebalanceCount := getRebalanceCount q.rebalances
  let reserveBalances := getReserveBalances oraclePrices q.ghoBalance q.usdcBalance
  let tokenAllocationData := getVaultTokenAllocations oraclePrices q.vaultTokens
  let dailySwapVolume :=
    ((buildDailySwapMap swapEvents).map fun p =>
        (p.1, formatUnits p.2 18 * ethPrice)).insertionSort
      fun a b => a.1 ≤ b.1
  let dailyIOUMinted :=
    ((buildDailyMintMap mintEvents).map fun p =>
        (p.1, formatUnits p.2 6)).insertionSort
      fun a b => a.1 ≤ b.1
  let allUsers := (depositData.2 ++ swapUsers swapEvents).foldl setInsert []
  .ok
    { totalSwapVolumeUSD := formatUnits (totalSwapVolume swapEvents) 18 * ethPrice
      totalIOUMinted := formatUnits (totalIOUMintedOf mintEvents) 6
      totalIOUBurned := formatUnits burnedAmount 6
      rebalanceVolumeUSD := 0
      totalValueLockedUSD := tokenAllocationData.2
      reserveBalances := reserveBalances
      tokenAllocations := tokenAllocationData.1
      numberOfVaults := vaultCount
      numberOfRebalances := rebalanceCount
      activeUsers := allUsers.length
      totalTransactions := swapEvents.length
      iouOutstandingSupply := formatUnits iouSupply 6
      protocolFeesUSD := formatUnits (Int.tdiv (totalIOUFromSwaps swapEvents) 100) 18 * ethPrice
      dailySwapVolume := dailySwapVolume
      dailyIOUMinted := dailyIOUMinted
      oraclePrices := oraclePrices
      ethPrice := ethPrice
      lastBlock := q.latestBlock }

/-! ### IEEE-754 classification for the unguarded depeg division (C10) -/

/-- Classification of a JS float64 value: a finite value (tracked exactly as a
rational), a signed infinity, or NaN. -/
inductive JsNum where
  | fin (q : ℚ)
  | inf (positive : Bool)
  | nan
deriving DecidableEq, Repr

/-- IEEE-754 division of finite values: finite `x / 0` is `±∞` for `x ≠ 0`
and `NaN` for `x = 0`; otherwise the exact quotient. -/
def jsDiv (a b : ℚ) : JsNum :=
  if b = 0 then (if a = 0 then .nan else .inf (decide (0 < a)))
  else .fin (a / b)

/-- IEEE-754 multiplication of a classified value by the positive constant
`100` used in the depeg formula. -/
def jsMul100 : JsNum → JsNum
  | .fin q => .fin (q * 100)
  | .inf s => .inf s
  | .nan => .nan

/-- Whether a classified value is a finite number. -/
def JsNum.isFinite : JsNum → Bool
  | .fin _ => true
  | .inf _ => false
  | .nan => false

/-- The `depegPercentage` expression of `calculateRouteStatus`,
`((toPrice - fromPrice) / toPrice) * 100`, evaluated under IEEE-754
classification. -/
def depegPercentageJs (fromPrice toPrice : ℚ) : JsNum :=
  jsMul100 (jsDiv (toPrice - fromPrice) toPrice)

/-! ### Invariants of the persisted route event log -/

/-- Spec invariant: for each route key, at most one record is currently open
(`closedAtMs` unset). -/
def AtMostOneOpen (events : List RouteOpenEvent) : Prop :=
  ∀ name, (openFor events name).length ≤ 1

/-- An open record is strictly more recent than every closed record of its
route.  Every log reachable from the empty log with strictly increasing cycle
times has this shape; it is the precondition under which the most-recent-record
selection of `updateRouteEvents` finds the open record. -/
def OpenIsLatest (events : List RouteOpenEvent) : Prop :=
  ∀ a ∈ events, ∀ b ∈ events, a.route = b.route → a.closedAt = none →
    b.closedAt ≠ none → b.openedAt < a.openedAt

/-- Spec invariant: `durationMs` is set iff `closedAtMs` is set, and equals
`closedAtMs - openedAtMs` when both are set. -/
def DurationInv (events : List RouteOpenEvent) : Prop :=
  ∀ e ∈ events, (e.durationMs = none ↔ e.closedAt = none) ∧
    ∀ c d, e.closedAt = some c → e.durationMs = some d → d = c - e.openedAt

/-! ### Helper lemmas about the last-event selection fold -/

theorem pick_foldl_none {l : List RouteOpenEvent} {acc : Option RouteOpenEvent}
    (h : l.foldl pick acc = none) : acc = none ∧ l = [] := by
  induction l generalizing acc with
  | nil => exact ⟨h, rfl⟩
  | cons e rest ih =>
    have h' := @ih (pick acc e) h
    cases acc with
    | none => simp [pick] at h'
    | some b =>
      exfalso
      have := h'.1
      simp only [pick] at this
      split at this <;> simp at this

theorem pick_foldl_spec {l : List RouteOpenEvent} :
    ∀ {acc c}, l.foldl pick acc = some c →
      (acc = some c ∨ c ∈ l) ∧ (∀ e ∈ l, e.openedAt ≤ c.openedAt) ∧
        (∀ b, acc = some b → b.openedAt ≤ c.openedAt) := by
  induction l with
  | nil =>
    intro acc c h
    simp only [List.foldl_nil] at h
    exact ⟨Or.inl h, by simp, fun b hb => by rw [hb] at h; cases h; exact le_refl _⟩
  | cons e rest ih =>
    intro acc c h
    simp only [List.foldl_cons] at h
    obtain ⟨hmem, hbound, hacc⟩ := ih h
    have hacc_e : e.openedAt ≤ c.openedAt := by
      cases acc with
      | none => exact hacc e rfl
      | some b =>
        simp only [pick] at hmem hbound hacc
        by_cases hlt : b.openedAt < e.openedAt
        · simp only [if_pos hlt] at hacc
          exact hacc e rfl
        · simp only [if_neg hlt] at hacc
          exact le_trans (le_of_not_lt hlt) (hacc b rfl)
    refine ⟨?_, ?_, ?_⟩
    · cases acc with
      | none =>
        simp only [pick] at hmem
        rcases hmem with h1 | h2
        · exact Or.inr (by cases h1; exact List.mem_cons_self ..)
        · exact Or.inr (List.mem_cons_of_mem _ h2)
      | some b =>
        simp only [pick] at hmem
        by_cases hlt : b.openedAt < e.openedAt
        · simp only [if_pos hlt] at hmem
          rcases hmem with h1 | h2
          · exact Or.inr (by cases h1; exact List.mem_cons_self ..)
          · exact Or.inr (List.mem_cons_of_mem _ h2)
        · simp only [if_neg hlt] at hmem
          rcases hmem with h1 | h2
          · exact Or.inl h1
          · exact Or.inr (List.mem_cons_of_mem _ h2)
    · intro x hx
      rcases List.mem_cons.mp hx with rfl | hx'
      · exact hacc_e
      · exact hbound x hx'
    · intro b hb
      subst hb
      cases hlt : pick (some b) e with
      | none => simp [pick] at hlt; split at hlt <;> simp_all
      | some b' =>
        have hb' : b.openedAt ≤ b'.openedAt := by
          simp only [pick] at hlt
          split at hlt <;> cases hlt
          · exact le_of_lt (by assumption)
          · exact le_refl _
        rw [hlt] at h
        have := (ih h).2.2 b' rfl
        exact le_trans hb' this

/-- The fold starting from a candidate `b` either keeps `b` (everything in the
list is `≤ b`) or ends at the first strictly-greater record of the list. -/
theorem pick_foldl_decompose_aux {l : List RouteOpenEvent} :
    ∀ {b x}, l.foldl pick (some b) = some x →
      (x = b ∧ ∀ e ∈ l, e.openedAt ≤ b.openedAt) ∨
        (b.openedAt < x.openedAt ∧ ∃ l1 l2, l = l1 ++ x :: l2 ∧
          (∀ e ∈ l1, e.openedAt < x.openedAt) ∧
          (∀ e ∈ l2, e.openedAt ≤ x.openedAt)) := by
  induction l with
  | nil =>
    intro b x h
    simp only [List.foldl_nil, Option.some.injEq] at h
    exact Or.inl ⟨h.symm, by simp⟩
  | cons a l ih =>
    intro b x h
    simp only [List.foldl_cons, pick] at h
    by_cases hba : b.openedAt < a.openedAt
    · rw [if_pos hba] at h
      rcases ih h with ⟨rfl, hle⟩ | ⟨hax, l1, l2, rfl, h1, h2⟩
      · exact Or.inr ⟨hba, [], l, rfl, by simp, hle⟩
      · exact Or.inr ⟨lt_trans hba hax, a :: l1, l2, rfl, by
          intro e he
          rcases List.mem_cons.mp he with rfl | he'
          · exact hax
          · exact h1 e he', h2⟩
    · rw [if_neg hba] at h
      rcases ih h with ⟨rfl, hle⟩ | ⟨hbx, l1, l2, rfl, h1, h2⟩
      · refine Or.inl ⟨rfl, ?_⟩
        intro e he
        rcases List.mem_cons.mp he with rfl | he'
        · exact le_of_not_lt hba
        · exact hle e he'
      · exact Or.inr ⟨hbx, a :: l1, l2, rfl, by
          intro e he
          rcases List.mem_cons.mp he with rfl | he'
          · exact lt_of_le_of_lt (le_of_not_lt hba) hbx
          · exact h1 e he', h2⟩

/-- The record selected by the sort-and-take-head is the first record of the
list achieving the maximal `openedAt`. -/
theorem pick_foldl_decompose {l : List RouteOpenEvent} {x : RouteOpenEvent}
    (h : l.foldl pick none = some x) :
    ∃ l1 l2, l = l1 ++ x :: l2 ∧ (∀ e ∈ l1, e.openedAt < x.openedAt) ∧
      (∀ e ∈ l2, e.openedAt ≤ x.openedAt) := by
  cases l with
  | nil => simp at h
  | cons a l =>
    simp only [List.foldl_cons, pick] at h
    rcases pick_foldl_decompose_aux h with ⟨rfl, hle⟩ | ⟨hax, l1, l2, rfl, h1, h2⟩
    · exact ⟨[], l, rfl, by simp, hle⟩
    · refine ⟨a :: l1, l2, rfl, ?_, h2⟩
      intro e he
      rcases List.mem_cons.mp he with rfl | he'
      · exact hax
      · exact h1 e he'

/-- If nothing in the list is strictly later than the candidate, the fold
keeps the candidate. -/
theorem pick_foldl_stay {l : List RouteOpenEvent} {c : RouteOpenEvent}
    (h : ∀ e ∈ l, e.openedAt ≤ c.openedAt) : l.foldl pick (some c) = some c := by
  induction l with
  | nil => rfl
  | cons a l ih =>
    simp only [List.foldl_cons, pick,
      if_neg (not_lt.mpr (h a (List.mem_cons_self ..)))]
    exact ih fun e he => h e (List.mem_cons_of_mem _ he)

/-- Converse of the decomposition: a record preceded only by strictly-earlier
records and followed only by no-later records is the one selected. -/
theorem pick_foldl_compose {l1 l2 : List RouteOpenEvent} {x : RouteOpenEvent}
    (h1 : ∀ e ∈ l1, e.openedAt < x.openedAt)
    (h2 : ∀ e ∈ l2, e.openedAt ≤ x.openedAt) :
    (l1 ++ x :: l2).foldl pick none = some x := by
  rw [List.foldl_append]
  cases hfold : l1.foldl pick none with
  | none =>
    simp only [List.foldl_cons, pick]
    exact pick_foldl_stay h2
  | some c =>
    obtain ⟨hmem, _, _⟩ := pick_foldl_spec hfold
    have hc : c ∈ l1 := by
      rcases hmem with h | h
      · cases h
      · exact h
    simp only [List.foldl_cons, pick, if_pos (h1 c hc)]
    exact pick_foldl_stay h2

/-! ### Helper lemmas about filtering and closing -/

theorem closeRecord_route (now : ℤ) (e : RouteOpenEvent) :
    (closeRecord now e).route = e.route := rfl

theorem closeFirst_cons_self (now : ℤ) (e : RouteOpenEvent)
    (rest : List RouteOpenEvent) :
    closeFirst now e (e :: rest) = closeRecord now e :: rest := by
  simp [closeFirst]

theorem closeFirst_cons_ne {a target : RouteOpenEvent} (h : a ≠ target)
    (now : ℤ) (rest : List RouteOpenEvent) :
    closeFirst now target (a :: rest) = a :: closeFirst now target rest := by
  simp [closeFirst, h]

theorem updateOneRoute_of_none {events : List RouteOpenEvent} {r : RouteStatus}
    (now : ℤ) (h : lastEventFor events (routeName r) = none) :
    updateOneRoute events r now =
      if r.isOpen then events ++ [newOpenEvent (routeName r) now] else events := by
  unfold updateOneRoute
  rw [h]

theorem updateOneRoute_of_some {events : List RouteOpenEvent} {r : RouteStatus}
    {le : RouteOpenEvent} (now : ℤ)
    (h : lastEventFor events (routeName r) = some le) :
    updateOneRoute events r now =
      if r.isOpen then
        if le.closedAt ≠ none then events ++ [newOpenEvent (routeName r) now]
        else events
      else
        if le.closedAt = none then closeFirst now le events else events := by
  unfold updateOneRoute
  rw [h]

theorem closeRecord_openedAt (now : ℤ) (e : RouteOpenEvent) :
    (closeRecord now e).openedAt = e.openedAt := rfl

theorem mem_byRoute {events : List RouteOpenEvent} {name : String}
    {e : RouteOpenEvent} (h : e ∈ byRoute events name) :
    e ∈ events ∧ e.route = name := by
  have := List.mem_filter.mp h
  exact ⟨this.1, by simpa using this.2⟩

theorem byRoute_append (l1 l2 : List RouteOpenEvent) (name : String) :
    byRoute (l1 ++ l2) name = byRoute l1 name ++ byRoute l2 name :=
  List.filter_append ..

theorem byRoute_newOpenEvent_self (name : String) (now : ℤ) :
    byRoute [newOpenEvent name now] name = [newOpenEvent name now] := by
  simp [byRoute, newOpenEvent]

theorem byRoute_newOpenEvent_other {name name' : String} (h : name' ≠ name)
    (now : ℤ) : byRoute [newOpenEvent name now] name' = [] := by
  have hb : ((newOpenEvent name now).route == name') = false :=
    beq_eq_false_iff_ne.mpr fun hc => h (by simpa [newOpenEvent] using hc.symm)
  simp [byRoute, List.filter_cons, hb]

/-- `closeFirst` commutes with any filter that treats a record and its closed
version alike and accepts the target. -/
theorem filter_closeFirst_pos {p : RouteOpenEvent → Bool} {now : ℤ}
    {target : RouteOpenEvent} (hp : p (closeRecord now target) = p target)
    (ht : p target = true) (l : List RouteOpenEvent) :
    (closeFirst now target l).filter p = closeFirst now target (l.filter p) := by
  have hpc : p (closeRecord now target) = true := hp.trans ht
  induction l with
  | nil => rfl
  | cons e rest ih =>
    by_cases he : e = target
    · subst he
      rw [closeFirst_cons_self, List.filter_cons_of_pos hpc,
        List.filter_cons_of_pos ht, closeFirst_cons_self]
    · rw [closeFirst_cons_ne he]
      cases hpe : p e with
      | true =>
        rw [List.filter_cons_of_pos hpe, List.filter_cons_of_pos hpe,
          closeFirst_cons_ne he, ih]
      | false =>
        rw [List.filter_cons_of_neg (by simp [hpe]),
          List.filter_cons_of_neg (by simp [hpe]), ih]

/-- `closeFirst` is invisible to any filter that rejects both the target and
its closed version. -/
theorem filter_closeFirst_neg {p : RouteOpenEvent → Bool} {now : ℤ}
    {target : RouteOpenEvent} (hp : p (closeRecord now target) = false)
    (ht : p target = false) (l : List RouteOpenEvent) :
    (closeFirst now target l).filter p = l.filter p := by
  induction l with
  | nil => rfl
  | cons e rest ih =>
    by_cases he : e = target
    · subst he
      rw [closeFirst_cons_self, List.filter_cons_of_neg (by simp [hp]),
        List.filter_cons_of_neg (by simp [ht])]
    · rw [closeFirst_cons_ne he]
      cases hpe : p e with
      | true =>
        rw [List.filter_cons_of_pos hpe, List.filter_cons_of_pos hpe, ih]
      | false =>
        rw [List.filter_cons_of_neg (by simp [hpe]),
          List.filter_cons_of_neg (by simp [hpe]), ih]

/-- Through a filter that accepts the target but not its closed version,
closing the first occurrence acts as erasing it. -/
theorem filter_closeFirst_erase {p : RouteOpenEvent → Bool} {now : ℤ}
    {target : RouteOpenEvent} (hp : p (closeRecord now target) = false)
    (ht : p target = true) (l : List RouteOpenEvent) :
    (closeFirst now target l).filter p = (l.filter p).erase target := by
  induction l with
  | nil => rfl
  | cons e rest ih =>
    by_cases he : e = target
    · subst he
      rw [closeFirst_cons_self, List.filter_cons_of_neg (by simp [hp]),
        List.filter_cons_of_pos ht, List.erase_cons_head]
    · rw [closeFirst_cons_ne he]
      cases hpe : p e with
      | true =>
        rw [List.filter_cons_of_pos hpe, List.filter_cons_of_pos hpe,
          List.erase_cons_tail (not_beq_of_ne he), ih]
      | false =>
        rw [List.filter_cons_of_neg (by simp [hpe]),
          List.filter_cons_of_neg (by simp [hpe]), ih]

theorem mem_closeFirst {now : ℤ} {target e : RouteOpenEvent}
    {l : List RouteOpenEvent} (h : e ∈ closeFirst now target l) :
    e ∈ l ∨ e = closeRecord now target := by
  induction l with
  | nil => simp [closeFirst] at h
  | cons a rest ih =>
    by_cases ha : a = target
    · subst ha
      rw [closeFirst_cons_self, List.mem_cons] at h
      rcases h with h1 | h1
      · exact Or.inr h1
      · exact Or.inl (List.mem_cons_of_mem _ h1)
    · rw [closeFirst_cons_ne ha, List.mem_cons] at h
      rcases h with h1 | h1
      · exact Or.inl (by rw [h1]; exact List.mem_cons_self ..)
      · rcases ih h1 with h' | h'
        · exact Or.inl (List.mem_cons_of_mem _ h')
        · exact Or.inr h'

/-- Closing a target that nothing before it equals, placed between its
earlier and later context, rewrites pointwise. -/
theorem closeFirst_append {now : ℤ} {target : RouteOpenEvent}
    {l1 l2 : List RouteOpenEvent} (h : ∀ e ∈ l1, e ≠ target) :
    closeFirst now target (l1 ++ target :: l2) =
      l1 ++ closeRecord now target :: l2 := by
  induction l1 with
  | nil => simp [closeFirst]
  | cons a rest ih =>
    rw [List.cons_append, List.cons_append,
      closeFirst_cons_ne (h a (List.mem_cons_self ..))]
    exact congrArg (a :: ·) (ih fun e he => h e (List.mem_cons_of_mem _ he))

/-- Properties of the selected last event: it belongs to the records of the route
and is at least as recent as each of them. -/
theorem lastEventFor_spec {events : List RouteOpenEvent} {name : String}
    {le : RouteOpenEvent} (h : lastEventFor events name = some le) :
    le ∈ byRoute events name ∧ ∀ e ∈ byRoute events name,
      e.openedAt ≤ le.openedAt := by
  obtain ⟨hmem, hbound, _⟩ := pick_foldl_spec h
  refine ⟨?_, hbound⟩
  rcases hmem with h' | h'
  · cases h'
  · exact h'

theorem lastEventFor_none {events : List RouteOpenEvent} {name : String}
    (h : lastEventFor events name = none) : byRoute events name = [] :=
  (pick_foldl_none h).2

/-- A route update step leaves the records of every other route key
untouched. -/
theorem byRoute_updateOneRoute_other {events : List RouteOpenEvent}
    {r : RouteStatus} {now : ℤ} {name : String} (h : name ≠ routeName r) :
    byRoute (updateOneRoute events r now) name = byRoute events name := by
  have hbeq : ∀ e : RouteOpenEvent, e.route = routeName r →
      (e.route == name) = false :=
    fun e he => beq_eq_false_iff_ne.mpr fun hc => h (by rw [← hc, he])
  cases hle : lastEventFor events (routeName r) with
  | none =>
    rw [updateOneRoute_of_none now hle]
    by_cases ho : r.isOpen
    · rw [if_pos ho, byRoute_append, byRoute_newOpenEvent_other h now,
        List.append_nil]
    · rw [if_neg ho]
  | some le =>
    rw [updateOneRoute_of_some now hle]
    have hroute : le.route = routeName r :=
      (mem_byRoute (lastEventFor_spec hle).1).2
    by_cases ho : r.isOpen
    · rw [if_pos ho]
      by_cases hc : le.closedAt ≠ none
      · rw [if_pos hc, byRoute_append, byRoute_newOpenEvent_other h now,
          List.append_nil]
      · rw [if_neg hc]
    · rw [if_neg ho]
      by_cases hc : le.closedAt = none
      · rw [if_pos hc]
        exact filter_closeFirst_neg
          (by rw [closeRecord_route]; exact hbeq le hroute)
          (hbeq le hroute) events
      · rw [if_neg hc]

/-- A whole update pass leaves the records of route keys it does not process
untouched. -/
theorem byRoute_updateRouteEvents_other {routes : List RouteStatus}
    {events : List RouteOpenEvent} {now : ℤ} {name : String}
    (h : ∀ r ∈ routes, name ≠ routeName r) :
    byRoute (updateRouteEvents events routes now) name = byRoute events name := by
  induction routes generalizing events with
  | nil => rfl
  | cons r rest ih =>
    have := @ih (updateOneRoute events r now)
      fun r' hr' => h r' (List.mem_cons_of_mem _ hr')
    rw [updateRouteEvents] at *
    simp only [List.foldl_cons]
    rw [this, byRoute_updateOneRoute_other (h r (List.mem_cons_self ..))]

/-! ### Preservation of the at-most-one-open invariant -/

theorem updateRouteEvents_nil (events : List RouteOpenEvent) (now : ℤ) :
    updateRouteEvents events [] now = events := rfl

theorem updateRouteEvents_cons (events : List RouteOpenEvent) (r : RouteStatus)
    (routes : List RouteStatus) (now : ℤ) :
    updateRouteEvents events (r :: routes) now =
      updateRouteEvents (updateOneRoute events r now) routes now := rfl

theorem openFor_append (l1 l2 : List RouteOpenEvent) (name : String) :
    openFor (l1 ++ l2) name = openFor l1 name ++ openFor l2 name := by
  rw [openFor, byRoute_append, List.filter_append, openFor, openFor]

theorem openFor_newOpenEvent_self (name : String) (now : ℤ) :
    openFor [newOpenEvent name now] name = [newOpenEvent name now] := by
  rw [openFor, byRoute_newOpenEvent_self]
  simp [newOpenEvent]

theorem openFor_updateRouteEvents_other {routes : List RouteStatus}
    {events : List RouteOpenEvent} {now : ℤ} {name : String}
    (h : ∀ r ∈ routes, name ≠ routeName r) :
    openFor (updateRouteEvents events routes now) name = openFor events name := by
  rw [openFor, byRoute_updateRouteEvents_other h, openFor]

/-- The single-route update step keeps at most one open record for the route
it processes, provided the open record of the route (if any) is strictly more
recent than its closed ones. -/
theorem step_openFor_le_one {events : List RouteOpenEvent} {r : RouteStatus}
    {now : ℤ} {name : String} (hn : routeName r = name)
    (h1 : (openFor events name).length ≤ 1)
    (h2 : ∀ a ∈ byRoute events name, ∀ b ∈ byRoute events name,
      a.closedAt = none → b.closedAt ≠ none → b.openedAt < a.openedAt) :
    (openFor (updateOneRoute events r now) name).length ≤ 1 := by
  subst hn
  cases hle : lastEventFor events (routeName r) with
  | none =>
    have hempty : byRoute events (routeName r) = [] := lastEventFor_none hle
    rw [updateOneRoute_of_none now hle]
    by_cases ho : r.isOpen
    · rw [if_pos ho, openFor_append, openFor, hempty, List.filter_nil,
        List.nil_append, openFor_newOpenEvent_self]
      exact le_refl 1
    · rw [if_neg ho]; exact h1
  | some le =>
    obtain ⟨hmem, hmax⟩ := lastEventFor_spec hle
    have hroute : le.route = routeName r := (mem_byRoute hmem).2
    rw [updateOneRoute_of_some now hle]
    by_cases ho : r.isOpen
    · rw [if_pos ho]
      by_cases hc : le.closedAt ≠ none
      · rw [if_pos hc, openFor_append]
        have hopen_empty : openFor events (routeName r) = [] := by
          rw [List.eq_nil_iff_forall_not_mem]
          intro o ho'
          have homem : o ∈ byRoute events (routeName r) :=
            (List.mem_filter.mp ho').1
          have hoopen : o.closedAt = none := by
            have := (List.mem_filter.mp ho').2
            simpa [Option.isNone_iff_eq_none] using this
          exact absurd (h2 o homem le hmem hoopen hc) (not_lt.mpr (hmax o homem))
        rw [hopen_empty, List.nil_append, openFor_newOpenEvent_self]
        exact le_refl 1
      · rw [if_neg hc]; exact h1
    · rw [if_neg ho]
      by_cases hc : le.closedAt = none
      · rw [if_pos hc]
        have hclose : openFor (closeFirst now le events) (routeName r) =
            (openFor events (routeName r)).erase le := by
          rw [openFor, byRoute,
            filter_closeFirst_pos (by rw [closeRecord_route]) (by simp [hroute]),
            filter_closeFirst_erase (by simp [closeRecord]) (by simp [hc]),
            openFor, byRoute]
        rw [hclose]
        exact le_trans ((List.erase_sublist le _).length_le) h1
      · rw [if_neg hc]; exact h1

/-- Update pass invariant preservation for a single route key. -/
theorem pass_openFor_le_one {name : String} {now : ℤ} :
    ∀ (routes : List RouteStatus) (events : List RouteOpenEvent),
      routes.Pairwise (fun r1 r2 => routeName r1 ≠ routeName r2) →
      (openFor events name).length ≤ 1 →
      (∀ a ∈ byRoute events name, ∀ b ∈ byRoute events name,
        a.closedAt = none → b.closedAt ≠ none → b.openedAt < a.openedAt) →
      (openFor (updateRouteEvents events routes now) name).length ≤ 1 := by
  intro routes
  induction routes with
  | nil => intro events _ h1 _; exact h1
  | cons r rest ih =>
    intro events hpw h1 h2
    rw [updateRouteEvents_cons]
    by_cases hn : routeName r = name
    · have hrest : ∀ r' ∈ rest, name ≠ routeName r' := by
        intro r' hr'
        have hne := (List.pairwise_cons.mp hpw).1 r' hr'
        rw [hn] at hne
        exact hne
      rw [openFor_updateRouteEvents_other hrest]
      exact step_openFor_le_one hn h1 h2
    · have hby : byRoute (updateOneRoute events r now) name = byRoute events name :=
        byRoute_updateOneRoute_other fun hc => hn hc.symm
      refine ih (updateOneRoute events r now) (List.pairwise_cons.mp hpw).2 ?_ ?_
      · rw [openFor, hby]; exact h1
      · intro a ha b hb
        rw [hby] at ha hb
        exact h2 a ha b hb

/-! ### Idempotence of the update pass -/

theorem lastEventFor_eq (events : List RouteOpenEvent) (name : String) :
    lastEventFor events name = (byRoute events name).foldl pick none := rfl

/-- Running the update step for a route a second time changes nothing,
provided every pre-existing record of that route opened strictly before `now`
and the relevant records are those produced by the first step. -/
theorem second_step_noop {events events1 : List RouteOpenEvent}
    {r : RouteStatus} {now : ℤ}
    (h0 : ∀ e ∈ byRoute events (routeName r), e.openedAt < now)
    (hby : byRoute events1 (routeName r) =
      byRoute (updateOneRoute events r now) (routeName r)) :
    updateOneRoute events1 r now = events1 := by
  have hlast : lastEventFor events1 (routeName r) =
      (byRoute (updateOneRoute events r now) (routeName r)).foldl pick none := by
    rw [lastEventFor_eq, hby]
  cases hle : lastEventFor events (routeName r) with
  | none =>
    have hempty : byRoute events (routeName r) = [] := lastEventFor_none hle
    by_cases ho : r.isOpen
    · have hnew : lastEventFor events1 (routeName r) =
          some (newOpenEvent (routeName r) now) := by
        rw [hlast, updateOneRoute_of_none now hle, if_pos ho, byRoute_append,
          hempty, byRoute_newOpenEvent_self, List.nil_append]
        rfl
      rw [updateOneRoute_of_some now hnew, if_pos ho,
        if_neg (by simp [newOpenEvent])]
    · have hnone : lastEventFor events1 (routeName r) = none := by
        rw [hlast, updateOneRoute_of_none now hle, if_neg ho, hempty]
        rfl
      rw [updateOneRoute_of_none now hnone, if_neg ho]
  | some le =>
    have hroute : le.route = routeName r :=
      (mem_byRoute (lastEventFor_spec hle).1).2
    by_cases ho : r.isOpen
    · by_cases hc : le.closedAt ≠ none
      · -- the first step appended a fresh open record, which is now the
        -- strictly most recent one
        have hnew : lastEventFor events1 (routeName r) =
            some (newOpenEvent (routeName r) now) := by
          rw [hlast, updateOneRoute_of_some now hle, if_pos ho, if_pos hc,
            byRoute_append, byRoute_newOpenEvent_self]
          exact pick_foldl_compose (fun e he => h0 e he) (by simp)
        rw [updateOneRoute_of_some now hnew, if_pos ho,
          if_neg (by simp [newOpenEvent])]
      · -- the open record simply persisted
        have hsame : lastEventFor events1 (routeName r) = some le := by
          rw [hlast, updateOneRoute_of_some now hle, if_pos ho, if_neg hc,
            ← lastEventFor_eq, hle]
        rw [updateOneRoute_of_some now hsame, if_pos ho, if_neg hc]
    · by_cases hc : le.closedAt = none
      · -- the first step closed the selected record in place; the closed
        -- version occupies the same position and is selected again
        obtain ⟨l1, l2, hdec, hl1, hl2⟩ :=
          @pick_foldl_decompose (byRoute events (routeName r)) le
            (by rw [← lastEventFor_eq]; exact hle)
        have hne : ∀ e ∈ l1, e ≠ le := by
          intro e he hcon
          exact absurd (hl1 e he) (by rw [hcon]; exact lt_irrefl _)
        have hclosed : lastEventFor events1 (routeName r) =
            some (closeRecord now le) := by
          rw [hlast, updateOneRoute_of_some now hle, if_neg ho, if_pos hc,
            byRoute, filter_closeFirst_pos (by rw [closeRecord_route])
              (by simp [hroute]), ← byRoute, hdec, closeFirst_append hne]
          exact pick_foldl_compose
            (fun e he => by rw [closeRecord_openedAt]; exact hl1 e he)
            (fun e he => by rw [closeRecord_openedAt]; exact hl2 e he)
        rw [updateOneRoute_of_some now hclosed, if_neg ho,
          if_neg (by simp [closeRecord])]
      · have hsame : lastEventFor events1 (routeName r) = some le := by
          rw [hlast, updateOneRoute_of_some now hle, if_neg ho, if_neg hc,
            ← lastEventFor_eq, hle]
        rw [updateOneRoute_of_some now hsame, if_neg ho, if_neg hc]

/-- A whole second pass with the same route statuses and the same `now` is a
no-op, given pairwise-distinct route keys and records opened strictly before
`now`. -/
theorem second_pass_noop {now : ℤ} :
    ∀ (routes : List RouteStatus) (events : List RouteOpenEvent),
      routes.Pairwise (fun r1 r2 => routeName r1 ≠ routeName r2) →
      (∀ r ∈ routes, ∀ e ∈ byRoute events (routeName r), e.openedAt < now) →
      updateRouteEvents (updateRouteEvents events routes now) routes now =
        updateRouteEvents events routes now := by
  intro routes
  induction routes with
  | nil => intro events _ _; rfl
  | cons r rest ih =>
    intro events hpw hlt
    have hhead : ∀ r' ∈ rest, routeName r ≠ routeName r' :=
      (List.pairwise_cons.mp hpw).1
    rw [updateRouteEvents_cons, updateRouteEvents_cons]
    have hby : byRoute (updateRouteEvents (updateOneRoute events r now) rest now)
        (routeName r) = byRoute (updateOneRoute events r now) (routeName r) :=
      byRoute_updateRouteEvents_other fun r' hr' => hhead r' hr'
    rw [second_step_noop (hlt r (List.mem_cons_self ..)) hby]
    refine ih (updateOneRoute events r now) (List.pairwise_cons.mp hpw).2 ?_
    intro r' hr' e he
    rw [byRoute_updateOneRoute_other fun hc => hhead r' hr' hc.symm] at he
    exact hlt r' (List.mem_cons_of_mem _ hr') e he

/-! ### Preservation of the duration/closed coupling -/

theorem durationInv_updateOneRoute {events : List RouteOpenEvent}
    {r : RouteStatus} {now : ℤ} (h : DurationInv events) :
    DurationInv (updateOneRoute events r now) := by
  have hnew : ∀ name nowv, (DurationInv [newOpenEvent name nowv]) := by
    intro name nowv e he
    rcases List.mem_singleton.mp he with rfl
    exact ⟨by simp [newOpenEvent], by intro c d hc _; simp [newOpenEvent] at hc⟩
  cases hle : lastEventFor events (routeName r) with
  | none =>
    rw [updateOneRoute_of_none now hle]
    by_cases ho : r.isOpen
    · rw [if_pos ho]
      intro e he
      rcases List.mem_append.mp he with h' | h'
      · exact h e h'
      · exact hnew (routeName r) now e h'
    · rw [if_neg ho]; exact h
  | some le =>
    rw [updateOneRoute_of_some now hle]
    by_cases ho : r.isOpen
    · rw [if_pos ho]
      by_cases hc : le.closedAt ≠ none
      · rw [if_pos hc]
        intro e he
        rcases List.mem_append.mp he with h' | h'
        · exact h e h'
        · exact hnew (routeName r) now e h'
      · rw [if_neg hc]; exact h
    · rw [if_neg ho]
      by_cases hc : le.closedAt = none
      · rw [if_pos hc]
        intro e he
        rcases mem_closeFirst he with h' | h'
        · exact h e h'
        · subst h'
          refine ⟨by simp [closeRecord], ?_⟩
          intro c d hcc hd
          simp only [closeRecord, Option.some.injEq] at hcc hd
          rw [← hcc, ← hd, closeRecord_openedAt]
      · rw [if_neg hc]; exact h

theorem durationInv_update {events : List RouteOpenEvent}
    {routes : List RouteStatus} {now : ℤ} (h : DurationInv events) :
    DurationInv (updateRouteEvents events routes now) := by
  induction routes generalizing events with
  | nil => exact h
  | cons r rest ih =>
    rw [updateRouteEvents_cons]
    exact ih (durationInv_updateOneRoute h)

/-! ### Summation lemmas -/

theorem foldl_add_int {α : Type} (f : α → ℤ) (l : List α) :
    ∀ a : ℤ, l.foldl (fun acc e => acc + f e) a = a + (l.map f).sum := by
  induction l with
  | nil => intro a; simp
  | cons e rest ih =>
    intro a
    rw [List.foldl_cons, ih, List.map_cons, List.sum_cons]
    ring

theorem foldl_add_durations (l : List RouteOpenEvent) :
    ∀ a : ℤ, l.foldl (fun s e => s + e.durationMs.getD 0) a =
      a + (l.map fun e => e.durationMs.getD 0).sum :=
  foldl_add_int (fun e => e.durationMs.getD 0) l

theorem filterMap_durations_eq {l : List RouteOpenEvent}
    (h : ∀ e ∈ l, e.durationMs ≠ none) :
    (l.filterMap fun e => e.durationMs) = l.map fun e => e.durationMs.getD 0 := by
  induction l with
  | nil => rfl
  | cons e rest ih =>
    cases hd : e.durationMs with
    | none => exact absurd hd (h e (List.mem_cons_self ..))
    | some d =>
      rw [List.filterMap_cons, hd, List.map_cons, hd,
        ih fun x hx => h x (List.mem_cons_of_mem _ hx)]
      rfl

theorem mapSnd_sum_bumpKey (m : List (ℕ × ℤ)) (k : ℕ) (a : ℤ) :
    ((bumpKey m k a).map Prod.snd).sum = (m.map Prod.snd).sum + a := by
  induction m with
  | nil => simp [bumpKey, mapGet, mapSet]
  | cons p rest ih =>
    by_cases hp : p.1 = k
    · have hg : mapGet (p :: rest) k = some p.2 := by
        rw [mapGet, List.find?_cons_of_pos _ (by simp [hp])]
        rfl
      rw [bumpKey, hg, mapSet, if_pos hp]
      simp only [Option.getD_some, List.map_cons, List.sum_cons]
      ring
    · rw [bumpKey, mapGet, List.find?_cons_of_neg _ (by simp [hp]), mapSet,
        if_neg hp]
      simp only [List.map_cons, List.sum_cons]
      rw [← mapGet, ← bumpKey, ih]
      ring

theorem buildDailySwapMap_sum_aux (l : List SwapEvent) :
    ∀ m : List (ℕ × ℤ),
      (((l.foldl (fun m e => bumpKey m (dateKey e.timestamp) e.amountIn) m)).map
            Prod.snd).sum =
        (m.map Prod.snd).sum + (l.map fun e => e.amountIn).sum := by
  induction l with
  | nil => intro m; simp
  | cons e rest ih =>
    intro m
    rw [List.foldl_cons, ih, mapSnd_sum_bumpKey, List.map_cons, List.sum_cons]
    ring

/-! ### Concrete fixtures used by the claim theorems -/

/-- GHO oracle entry priced at 0.998. -/
def ghoOracle998 : OraclePrice :=
  { asset := "0x69cac783c212bfae06e3c1a9a2e6ae6b17ba0614", price := 998 / 1000,
    decimals := 8, symbol := "GHO" }

/-- GHO oracle entry priced at 0.9997. -/
def ghoOracle9997 : OraclePrice :=
  { asset := "0x69cac783c212bfae06e3c1a9a2e6ae6b17ba0614", price := 9997 / 10000,
    decimals := 8, symbol := "GHO" }

/-- USDC oracle entry priced at 1.000. -/
def usdcOracle1 : OraclePrice :=
  { asset := "0x75faf114eafb1bdbe2f0316df893fd58ce46aa4d", price := 1,
    decimals := 8, symbol := "USDC" }

/-- Oracle entry with price 0 (for the division-by-zero claim). -/
def zeroPriceOracle : OraclePrice :=
  { asset := "0x00", price := 0, decimals := 8, symbol := "Unknown" }

/-- A GHO→USDC route status currently open. -/
def rOpenGU : RouteStatus :=
  { fromSymbol := "GHO", toSymbol := "USDC",
    fromAsset := "0x69cac783c212bfae06e3c1a9a2e6ae6b17ba0614",
    toAsset := "0x75faf114eafb1bdbe2f0316df893fd58ce46aa4d",
    isOpen := true, depegPercentage := 1 / 5, threshold := 1 / 20 }

/-- A GHO→USDC route status currently closed. -/
def rClosedGU : RouteStatus :=
  { rOpenGU with isOpen := false, depegPercentage := 3 / 100 }

/-- A persisted GHO→USDC record still open since time 5. -/
def openAt5 : RouteOpenEvent :=
  { id := "e1", route := "GHO -> USDC", openedAt := 5, closedAt := none,
    durationMs := none }

/-- A persisted GHO→USDC record opened at 10 and closed at 11. -/
def closedRec10 : RouteOpenEvent :=
  { id := "e2", route := "GHO -> USDC", openedAt := 10, closedAt := some 11,
    durationMs := some 1 }

/-- A persisted GHO→USDC record still open since time 1000. -/
def openAt1000 : RouteOpenEvent :=
  { id := "e3", route := "GHO -> USDC", openedAt := 1000, closedAt := none,
    durationMs := none }

/-- Swap of 100 native units. -/
def swapA : SwapEvent :=
  { fromAddr := "0x69cac783c212bfae06e3c1a9a2e6ae6b17ba0614",
    toAddr := "0x75faf114eafb1bdbe2f0316df893fd58ce46aa4d",
    receiver := "0xAA", amountIn := 100, tokenAmountOut := 99, iouAmountOut := 1,
    blockNumber := 1, timestamp := 1700000000, txHash := "0xt1" }

/-- Swap of 250 native units on the same UTC day as `swapA`. -/
def swapB : SwapEvent :=
  { fromAddr := "0x69cac783c212bfae06e3c1a9a2e6ae6b17ba0614",
    toAddr := "0x75faf114eafb1bdbe2f0316df893fd58ce46aa4d",
    receiver := "0xBB", amountIn := 250, tokenAmountOut := 248, iouAmountOut := 2,
    blockNumber := 2, timestamp := 1700000100, txHash := "0xt2" }

/-- A cycle whose queries all succeed except the IOU-mint Transfer query. -/
def qMintFails : CycleQueries :=
  { latestBlock := 100, swaps := .ok [swapA], mints := .error "mint query failed",
    burns := .ok [], vaultCreations := .ok [], deposits := .ok [],
    iouSupply := .ok 0, ethPriceRaw := .ok 2000, oracleRows := .ok [],
    rebalances := .ok 0, ghoBalance := .ok 0, usdcBalance := .ok 0,
    vaultTokens := .ok none }

/-- A cycle where every query guarded by `try`/`catch` fails but the
unguarded ones succeed. -/
def qGuardedFail : CycleQueries :=
  { latestBlock := 100, swaps := .error "s", mints := .ok [], burns := .ok [],
    vaultCreations := .ok [], deposits := .ok [], iouSupply := .error "i",
    ethPriceRaw := .error "e", oracleRows := .error "o",
    rebalances := .error "r", ghoBalance := .error "g",
    usdcBalance := .error "u", vaultTokens := .error "v" }

/-! ### Claim C1 -/

/-- Claim C1: the error-handling policy says no sub-query failure may abort
the cycle, but `getIOUMintEvents` (like the burn, vault-creation and deposit
queries) has no `try`/`catch`, so its failure rejects the `Promise.all` and
`getAllMetrics` produces no snapshot at all: with every other query
succeeding and only the mint query failing, the cycle hard-fails, while a
cycle in which all the guarded queries fail still produces a snapshot. -/
theorem claim_c1_code_eval :
    getAllMetrics qMintFails = .error "mint query failed" ∧
    ∃ m, getAllMetrics qGuardedFail = .ok m := by
  exact ⟨rfl, ⟨_, rfl⟩⟩

/-! ### Claim C2 -/

/-- Claim C2 as stated is false: the log `[openAt5, closedRec10]` satisfies
the at-most-one-open invariant, yet updating it with an open GHO→USDC status
appends a second open record, because the most-recent-record selection picks
the closed record opened at 10 and ignores the still-open record opened at 5.
Moreover even from the empty log the invariant breaks when the same route key
occurs several times in one status list, so the amended claim also has to
require pairwise-distinct route keys. -/
theorem claim_c2_counterexample :
    (AtMostOneOpen [openAt5, closedRec10] ∧
      ¬ AtMostOneOpen (updateRouteEvents [openAt5, closedRec10] [rOpenGU] 20)) ∧
    (AtMostOneOpen [] ∧ OpenIsLatest [] ∧
      ¬ AtMostOneOpen (updateRouteEvents []
        [rOpenGU, rClosedGU, rOpenGU, rClosedGU, rOpenGU] 5)) := by
  refine ⟨⟨?_, ?_⟩, ?_, ?_, ?_⟩
  · intro name
    by_cases hname : name = "GHO -> USDC"
    · subst hname; decide
    · have hempty : byRoute [openAt5, closedRec10] name = [] := by
        rw [byRoute, List.filter_eq_nil_iff]
        intro a ha hc
        rcases List.mem_cons.mp ha with rfl | ha'
        · exact hname (eq_of_beq hc).symm
        · rcases List.mem_singleton.mp ha' with rfl
          exact hname (eq_of_beq hc).symm
      rw [openFor, hempty, List.filter_nil]
      decide
  · intro h
    have h2 := h "GHO -> USDC"
    revert h2
    decide
  · intro name
    rw [openFor, byRoute, List.filter_nil, List.filter_nil]
    decide
  · intro a ha
    simp at ha
  · intro h
    have h2 := h "GHO -> USDC"
    revert h2
    decide

/-- Claim C2 (amended): the update step preserves the at-most-one-open
invariant provided additionally that each open record is strictly more recent
than every closed record of its route, and that the processed statuses carry
pairwise-distinct route keys. -/
theorem claim_c2_amended (events : List RouteOpenEvent)
    (routes : List RouteStatus) (now : ℤ) (h1 : AtMostOneOpen events)
    (h2 : OpenIsLatest events)
    (h3 : routes.Pairwise fun r1 r2 => routeName r1 ≠ routeName r2) :
    AtMostOneOpen (updateRouteEvents events routes now) := by
  intro name
  refine pass_openFor_le_one routes events h3 (h1 name) ?_
  intro a ha b hb hao hbc
  exact h2 a (mem_byRoute ha).1 b (mem_byRoute hb).1
    ((mem_byRoute ha).2.trans (mem_byRoute hb).2.symm) hao hbc

theorem claim_c2_witness :
    AtMostOneOpen (updateRouteEvents [] [rOpenGU] 20) :=
  claim_c2_amended [] [rOpenGU] 20
    (fun name => by rw [openFor, byRoute, List.filter_nil, List.filter_nil]; decide)
    (fun a ha => by simp at ha)
    (by simp)

/-! ### Claim C3 -/

/-- Claim C3 as stated is false: with a log whose most recent GHO→USDC record
opened later than `now`, each pass appends a fresh open record, so two passes
differ from one; and with a duplicated route key in the status list, the
second pass grows the log even from the empty log. -/
theorem claim_c3_counterexample :
    (updateRouteEvents (updateRouteEvents [closedRec10] [rOpenGU] 5)
        [rOpenGU] 5 ≠
      updateRouteEvents [closedRec10] [rOpenGU] 5) ∧
    (updateRouteEvents (updateRouteEvents [] [rOpenGU, rClosedGU] 5)
        [rOpenGU, rClosedGU] 5 ≠
      updateRouteEvents [] [rOpenGU, rClosedGU] 5) := by
  constructor
  · decide
  · decide

/-- Claim C3 (amended): the update pass is idempotent for a fixed `now`
provided the route keys of the statuses are pairwise distinct and every
pre-existing record opened strictly before `now`. -/
theorem claim_c3_amended (events : List RouteOpenEvent)
    (routes : List RouteStatus) (now : ℤ)
    (h1 : routes.Pairwise fun r1 r2 => routeName r1 ≠ routeName r2)
    (h2 : ∀ e ∈ events, e.openedAt < now) :
    updateRouteEvents (updateRouteEvents events routes now) routes now =
      updateRouteEvents events routes now :=
  second_pass_noop routes events h1 fun _ _ e he => h2 e (mem_byRoute he).1

theorem claim_c3_witness :
    updateRouteEvents (updateRouteEvents [closedRec10] [rOpenGU] 20)
        [rOpenGU] 20 =
      updateRouteEvents [closedRec10] [rOpenGU] 20 :=
  claim_c3_amended [closedRec10] [rOpenGU] 20 (by simp)
    (fun e he => by rcases List.mem_singleton.mp he with rfl; decide)

/-! ### Claim C4 -/

/-- Claim C4: `calculateRouteStatus` emits, for every ordered pair of distinct
oracle entries, a route that is open exactly when
`price(from) ≤ price(to) * thresholdBps / 10000`, with
`depegPercent = (price(to) − price(from)) / price(to) * 100`; with threshold
9995, price(GHO)=0.998 and price(USDC)=1.000 the GHO→USDC route is open with
depeg exactly 0.2 %, and with price(GHO)=0.9997 it is closed. -/
theorem claim_c4 :
    (∀ (ps : List OraclePrice) (t : ℤ) (i j : Fin ps.length), i ≠ j →
      routeFor (ps.get i) (ps.get j) t ∈ calculateRouteStatus ps t) ∧
    (∀ (a b : OraclePrice) (t : ℤ),
      ((routeFor a b t).isOpen = true ↔ a.price ≤ b.price * (t : ℚ) / 10000) ∧
      (routeFor a b t).depegPercentage = (b.price - a.price) / b.price * 100) ∧
    ((routeFor ghoOracle998 usdcOracle1 9995).isOpen = true ∧
      (routeFor ghoOracle998 usdcOracle1 9995).depegPercentage = 1 / 5) ∧
    (routeFor ghoOracle9997 usdcOracle1 9995).isOpen = false := by
  refine ⟨?_, ?_, ⟨?_, ?_⟩, ?_⟩
  · intro ps t i j hij
    rw [calculateRouteStatus, List.mem_flatMap]
    exact ⟨i, List.mem_finRange i,
      List.mem_filterMap.mpr ⟨j, List.mem_finRange j, by rw [if_neg hij]⟩⟩
  · intro a b t
    exact ⟨by simp [routeFor], rfl⟩
  · simp [routeFor, ghoOracle998, usdcOracle1]
    norm_num
  · simp [routeFor, ghoOracle998, usdcOracle1]
    norm_num
  · simp [routeFor, ghoOracle9997, usdcOracle1]
    norm_num

theorem claim_c4_witness :
    routeFor ghoOracle998 usdcOracle1 9995 ∈
      calculateRouteStatus [ghoOracle998, usdcOracle1] 9995 :=
  claim_c4.1 [ghoOracle998, usdcOracle1] 9995 ⟨0, by norm_num⟩ ⟨1, by norm_num⟩
    (by decide)

/-! ### Claim C5 -/

/-- Claim C5: the statistics block of `getRouteStatusMetrics` reports
`totalTimesOpened` as the count of all records, `totalOpenDurationMs` as the
sum of `durationMs` over closed records only (an open record never
contributes), and `averageOpenDurationMs` as that sum over the closed count,
or `null` when no record is closed — for a log produced by the update step
from a well-formed log. -/
theorem claim_c5 (events : List RouteOpenEvent) (routes : List RouteStatus)
    (now : ℤ) (h : DurationInv events) :
    (routeStatsOf (updateRouteEvents events routes now)).totalTimesOpened =
      (updateRouteEvents events routes now).length ∧
    (routeStatsOf (updateRouteEvents events routes now)).totalOpenDurationMs =
      (((updateRouteEvents events routes now).filter fun e =>
          !e.closedAt.isNone).filterMap fun e => e.durationMs).sum ∧
    (routeStatsOf (updateRouteEvents events routes now)).averageOpenDurationMs =
      (if ((updateRouteEvents events routes now).filter fun e =>
            !e.closedAt.isNone).length = 0 then none
       else some
        ((((((updateRouteEvents events routes now).filter fun e =>
            !e.closedAt.isNone).filterMap fun e => e.durationMs).sum : ℤ) : ℚ) /
          ((((updateRouteEvents events routes now).filter fun e =>
            !e.closedAt.isNone).length : ℕ) : ℚ))) := by
  have hinv : DurationInv (updateRouteEvents events routes now) :=
    durationInv_update h
  have hclosed : ∀ e ∈ (updateRouteEvents events routes now).filter fun e =>
      !e.closedAt.isNone, e.durationMs ≠ none := by
    intro e he hd
    have hmem := List.mem_filter.mp he
    have hc : e.closedAt = none := ((hinv e hmem.1).1).mp hd
    rw [hc] at hmem
    simp at hmem
  have hsum : (((updateRouteEvents events routes now).filter fun e =>
        !e.closedAt.isNone).filterMap fun e => e.durationMs).sum =
      (((updateRouteEvents events routes now).filter fun e =>
        !e.closedAt.isNone).map fun e => e.durationMs.getD 0).sum := by
    rw [filterMap_durations_eq hclosed]
  refine ⟨rfl, ?_, ?_⟩
  · rw [routeStatsOf, hsum, foldl_add_durations, zero_add]
  · rw [routeStatsOf, hsum, foldl_add_durations, zero_add]
    by_cases hlen : (((updateRouteEvents events routes now).filter fun e =>
        !e.closedAt.isNone)).length = 0
    · rw [if_pos hlen, if_neg (by rw [hlen]; exact lt_irrefl 0)]
    · rw [if_neg hlen, if_pos (Nat.pos_of_ne_zero hlen)]

theorem claim_c5_witness :
    (routeStatsOf (updateRouteEvents [openAt1000] [rClosedGU] 5000)).totalTimesOpened =
      (updateRouteEvents [openAt1000] [rClosedGU] 5000).length ∧
    (routeStatsOf (updateRouteEvents [openAt1000] [rClosedGU] 5000)).totalOpenDurationMs =
      (((updateRouteEvents [openAt1000] [rClosedGU] 5000).filter fun e =>
          !e.closedAt.isNone).filterMap fun e => e.durationMs).sum ∧
    (routeStatsOf (updateRouteEvents [openAt1000] [rClosedGU] 5000)).averageOpenDurationMs =
      (if ((updateRouteEvents [openAt1000] [rClosedGU] 5000).filter fun e =>
            !e.closedAt.isNone).length = 0 then none
       else some
        ((((((updateRouteEvents [openAt1000] [rClosedGU] 5000).filter fun e =>
            !e.closedAt.isNone).filterMap fun e => e.durationMs).sum : ℤ) : ℚ) /
          ((((updateRouteEvents [openAt1000] [rClosedGU] 5000).filter fun e =>
            !e.closedAt.isNone).length : ℕ) : ℚ))) :=
  claim_c5 [openAt1000] [rClosedGU] 5000
    (fun e he => by
      rcases List.mem_singleton.mp he with rfl
      exact ⟨by simp [openAt1000], fun c d hc _ => by simp [openAt1000] at hc⟩)

/-! ### Claim C6 -/

/-- Claim C6: the total swap volume is the sum of `amountIn` over the swap
events, independent of the input order, and the per-day bucket sums of the
daily swap map add up to exactly that total (all in native integer units,
before any USD formatting). -/
theorem claim_c6 (events events' : List SwapEvent) (hperm : events.Perm events') :
    totalSwapVolume events = (events.map fun e => e.amountIn).sum ∧
    totalSwapVolume events' = totalSwapVolume events ∧
    ((buildDailySwapMap events).map Prod.snd).sum = totalSwapVolume events := by
  have htot : ∀ l : List SwapEvent,
      totalSwapVolume l = (l.map fun e => e.amountIn).sum := by
    intro l
    rw [totalSwapVolume, foldl_add_int, zero_add]
  refine ⟨htot events, ?_, ?_⟩
  · rw [htot events, htot events']
    exact ((hperm.map fun e => e.amountIn).sum_eq).symm
  · rw [buildDailySwapMap, buildDailySwapMap_sum_aux, htot events]
    simp

theorem claim_c6_witness :
    totalSwapVolume [swapA, swapB] =
      ([swapA, swapB].map fun e => e.amountIn).sum ∧
    totalSwapVolume [swapB, swapA] = totalSwapVolume [swapA, swapB] ∧
    ((buildDailySwapMap [swapA, swapB]).map Prod.snd).sum =
      totalSwapVolume [swapA, swapB] :=
  claim_c6 [swapA, swapB] [swapB, swapA] (List.Perm.swap swapB swapA [])

/-! ### Claim C7 -/

/-- Claim C7 as stated is false: when no oracle entry matches the symbol of a token, the reserve-balance USD conversion does not report `"0"` — it falls
back to a price of `1` (`oracle?.price || 1`), so a vault holding 5 GHO with
no GHO price reports 5 USD, not 0. -/
theorem claim_c7_counterexample :
    ((getReserveBalances [] (.ok (5 * 10 ^ 18)) (.ok 0)).map fun r =>
      r.balanceUSD) = [5, 0] ∧ (5 : ℚ) ≠ 0 := by
  constructor
  · simp [getReserveBalances, reserveFor]
    norm_num
  · norm_num

/-- A vault token row whose symbol has no oracle entry in the fixtures. -/
def ghoToken : VaultToken :=
  { address := "0x69cac783c212bfae06e3c1a9a2e6ae6b17ba0614", name := "Mock GHO",
    symbol := "GHO", decimals := 18, balance := 4 * 10 ^ 18,
    adapter := "0x0000000000000000000000000000000000000000" }

/-- Claim C7 (amended): when no oracle entry matches the symbol of an asset,
or the matching entry has price 0, the reserve-balance and token-allocation
USD conversions use a default price of 1, so the USD value equals the plain
token balance rather than `"0"`; a failed balance fetch omits the entry of
that token entirely; a failed ETH reference-price fetch yields price 0, and a
cycle completing under it reports 0 for the ETH-priced USD metrics (total
swap volume USD and protocol fees USD).  Every entry that is produced carries
a well-formed numeric USD value. -/
theorem claim_c7_amended :
    (∀ (ps : List OraclePrice) (sym : String) (dec : ℕ) (bal : ℤ),
      (ps.find? fun o => o.symbol == sym) = none →
      reserveFor ps sym dec (.ok bal) =
        some { symbol := sym, balance := formatUnits bal dec,
               balanceUSD := formatUnits bal dec }) ∧
    (∀ (ps : List OraclePrice) (sym : String) (dec : ℕ) (bal : ℤ)
      (oracle : OraclePrice),
      (ps.find? fun o => o.symbol == sym) = some oracle → oracle.price = 0 →
      reserveFor ps sym dec (.ok bal) =
        some { symbol := sym, balance := formatUnits bal dec,
               balanceUSD := formatUnits bal dec }) ∧
    (∀ (ps : List OraclePrice) (t : VaultToken),
      ((ps.find? fun o => o.symbol == t.symbol) = none ∨
        ∃ oracle, (ps.find? fun o => o.symbol == t.symbol) = some oracle ∧
          oracle.price = 0) →
      (allocationFor ps t).balanceUSD = (allocationFor ps t).balance) ∧
    (∀ (ps : List OraclePrice) (sym : String) (dec : ℕ) (msg : String),
      reserveFor ps sym dec (.error msg) = none) ∧
    (∀ msg : String, getEthPrice (.error msg) = 0) ∧
    (∀ (q : CycleQueries) (msg : String) (mintsv : List IOUMintEvent)
      (burnsv : List ℤ) (vaultsv : List Unit) (depositsv : List DepositEvent),
      q.mints = .ok mintsv → q.burns = .ok burnsv →
      q.vaultCreations = .ok vaultsv → q.deposits = .ok depositsv →
      q.ethPriceRaw = .error msg →
      ∃ m, getAllMetrics q = .ok m ∧ m.ethPrice = 0 ∧
        m.totalSwapVolumeUSD = 0 ∧ m.protocolFeesUSD = 0) := by
  refine ⟨?_, ?_, ?_, fun _ _ _ _ => rfl, fun _ => rfl, ?_⟩
  · intro ps sym dec bal hfind
    rw [reserveFor, hfind]
    rw [show ((bal : ℚ) / (10 : ℚ) ^ dec * 1) = (bal : ℚ) / (10 : ℚ) ^ dec from
      mul_one _]
    rfl
  · intro ps sym dec bal oracle hfind hzero
    rw [reserveFor, hfind]
    simp [hzero, formatUnits]
  · intro ps t h
    rcases h with hnone | ⟨oracle, hsome, hzero⟩
    · simp [allocationFor, hnone]
    · simp [allocationFor, hsome, hzero]
  · intro q msg mintsv burnsv vaultsv depositsv h1 h2 h3 h4 he
    unfold getAllMetrics
    rw [h1, h2, h3, h4, he]
    exact ⟨_, rfl, rfl, mul_zero _, mul_zero _⟩

theorem claim_c7_witness :
    reserveFor [] "GHO" 18 (.ok 3) =
      some { symbol := "GHO", balance := formatUnits 3 18,
             balanceUSD := formatUnits 3 18 } ∧
    reserveFor [zeroPriceOracle] "Unknown" 18 (.ok 7) =
      some { symbol := "Unknown", balance := formatUnits 7 18,
             balanceUSD := formatUnits 7 18 } ∧
    (allocationFor [] ghoToken).balanceUSD = (allocationFor [] ghoToken).balance ∧
    reserveFor [usdcOracle1] "USDC" 6 (.error "balanceOf failed") = none ∧
    getEthPrice (.error "coingecko failed") = 0 ∧
    (∃ m, getAllMetrics qGuardedFail = .ok m ∧ m.ethPrice = 0 ∧
      m.totalSwapVolumeUSD = 0 ∧ m.protocolFeesUSD = 0) :=
  ⟨claim_c7_amended.1 [] "GHO" 18 3 rfl,
   claim_c7_amended.2.1 [zeroPriceOracle] "Unknown" 18 7 zeroPriceOracle rfl rfl,
   claim_c7_amended.2.2.1 [] ghoToken (Or.inl rfl),
   claim_c7_amended.2.2.2.1 [usdcOracle1] "USDC" 6 "balanceOf failed",
   claim_c7_amended.2.2.2.2.1 "coingecko failed",
   claim_c7_amended.2.2.2.2.2 qGuardedFail "e" [] [] [] [] rfl rfl rfl rfl rfl⟩

/-! ### Claim C8 -/

/-- Claim C8: the update step preserves the coupling of `durationMs` and
`closedAt` — in a log produced from a well-formed log, `durationMs` is set
iff `closedAt` is set and then equals `closedAt − openedAt`; a freshly
created record has both fields null, and closing sets both together. -/
theorem claim_c8 (events : List RouteOpenEvent) (routes : List RouteStatus)
    (now : ℤ) (h : DurationInv events) :
    DurationInv (updateRouteEvents events routes now) ∧
    (∀ (name : String) (t : ℤ),
      (newOpenEvent name t).closedAt = none ∧
      (newOpenEvent name t).durationMs = none) ∧
    (∀ (t : ℤ) (e : RouteOpenEvent),
      (closeRecord t e).closedAt = some t ∧
      (closeRecord t e).durationMs = some (t - e.openedAt)) :=
  ⟨durationInv_update h, fun _ _ => ⟨rfl, rfl⟩, fun _ _ => ⟨rfl, rfl⟩⟩

theorem claim_c8_witness :
    DurationInv (updateRouteEvents [openAt1000] [rClosedGU] 5000) ∧
    (∀ (name : String) (t : ℤ),
      (newOpenEvent name t).closedAt = none ∧
      (newOpenEvent name t).durationMs = none) ∧
    (∀ (t : ℤ) (e : RouteOpenEvent),
      (closeRecord t e).closedAt = some t ∧
      (closeRecord t e).durationMs = some (t - e.openedAt)) :=
  claim_c8 [openAt1000] [rClosedGU] 5000
    (fun e he => by
      rcases List.mem_singleton.mp he with rfl
      exact ⟨by simp [openAt1000], fun c d hc _ => by simp [openAt1000] at hc⟩)

/-! ### Claim C9 -/

/-- Claim C9: the update step identifies a route purely by the string
`"fromSymbol -> toSymbol"`: two statuses agreeing on symbols and `isOpen`
drive exactly the same log transition regardless of their asset addresses,
and any two oracle rows whose addresses are missing from the address→symbol
table are both labelled `"Unknown"`, hence share one interval history. -/
theorem claim_c9 :
    (∀ (events : List RouteOpenEvent) (now : ℤ) (r r' : RouteStatus),
      routeName r = routeName r' → r.isOpen = r'.isOpen →
      updateOneRoute events r now = updateOneRoute events r' now) ∧
    (∀ row row' : OracleRow,
      symbolMapLookup (jsToLower row.asset) = none →
      symbolMapLookup (jsToLower row'.asset) = none →
      (mapOracleRow row).symbol = "Unknown" ∧
      (mapOracleRow row').symbol = (mapOracleRow row).symbol) := by
  constructor
  · intro events now r r' h1 h2
    unfold updateOneRoute
    rw [h1, h2]
  · intro row row' h1 h2
    constructor
    · rw [mapOracleRow, h1]
      rfl
    · rw [mapOracleRow, mapOracleRow, h1, h2]

/-- Two route statuses with identical symbols but different asset addresses,
and two oracle rows with unmapped addresses. -/
def rUnknownA : RouteStatus :=
  { fromSymbol := "Unknown", toSymbol := "USDC", fromAsset := "0xaaaa",
    toAsset := "0x75faf114eafb1bdbe2f0316df893fd58ce46aa4d", isOpen := true,
    depegPercentage := 1 / 2, threshold := 1 / 20 }

/-- Same route key as `rUnknownA` with a different source asset address. -/
def rUnknownB : RouteStatus :=
  { rUnknownA with fromAsset := "0xbbbb", depegPercentage := 3 / 4 }

/-- An oracle row whose address is absent from the symbol table. -/
def rowDead : OracleRow :=
  { asset := "0xdead", assetDecimals := 18, oracleDecimals := 8,
    price := 99900000 }

/-- Another oracle row with a different unmapped address. -/
def rowBeef : OracleRow :=
  { asset := "0xbeef", assetDecimals := 6, oracleDecimals := 8,
    price := 100000000 }

theorem claim_c9_witness :
    updateOneRoute [openAt5] rUnknownA 7 = updateOneRoute [openAt5] rUnknownB 7 ∧
    (mapOracleRow rowDead).symbol = "Unknown" ∧
    (mapOracleRow rowBeef).symbol = (mapOracleRow rowDead).symbol :=
  ⟨claim_c9.1 [openAt5] 7 rUnknownA rUnknownB rfl rfl,
   (claim_c9.2 rowDead rowBeef rfl rfl).1,
   (claim_c9.2 rowDead rowBeef rfl rfl).2⟩

/-! ### Claim C10 -/

/-- Claim C10: `calculateRouteStatus` divides by the destination price with
no zero guard: when the oracle price of the to-asset is 0, the depeg expression
`(toPrice - fromPrice) / toPrice * 100` is a division by zero and under
IEEE-754 float semantics yields a non-finite value (±∞ or NaN), while
`isOpen` is still computed and holds exactly when the from-price is ≤ 0;
for a non-zero destination price the same expression is the finite rational
recorded in the returned `RouteStatus`. -/
theorem claim_c10 :
    (∀ (fromToken toToken : OraclePrice) (t : ℤ), toToken.price = 0 →
      (depegPercentageJs fromToken.price toToken.price).isFinite = false ∧
      ((routeFor fromToken toToken t).isOpen = true ↔ fromToken.price ≤ 0)) ∧
    (∀ (fromToken toToken : OraclePrice) (t : ℤ), toToken.price ≠ 0 →
      depegPercentageJs fromToken.price toToken.price =
        .fin ((routeFor fromToken toToken t).depegPercentage)) := by
  constructor
  · intro a b t hb
    constructor
    · rw [depegPercentageJs, jsDiv, if_pos hb]
      by_cases ha : b.price - a.price = 0
      · rw [if_pos ha]; rfl
      · rw [if_neg ha]; rfl
    · simp [routeFor, hb]
  · intro a b t hb
    rw [depegPercentageJs, jsDiv, if_neg hb, jsMul100]
    rfl

theorem claim_c10_witness :
    (depegPercentageJs ghoOracle998.price zeroPriceOracle.price).isFinite =
      false ∧
    ((routeFor ghoOracle998 zeroPriceOracle 9995).isOpen = true ↔
      ghoOracle998.price ≤ 0) :=
  claim_c10.1 ghoOracle998 zeroPriceOracle 9995 rfl

end Clear
